import Mathlib

/-!
Verification of the statistics engine, change gate and hybrid serializer of
the `datosEmbalses` pipeline (`main.py`), as a shallow embedding.

Conventions of the embedding:
* pandas `Timestamp`s carry day resolution here; a `Date` is a proleptic
  Gregorian calendar date and `toRD` is its day number, so that every
  timestamp comparison and every `pd.Timedelta(days=n)` offset of the source
  becomes an integer comparison on `toRD`.
* `dateutil.relativedelta` year/month offsets become `addYears`/`addMonths`
  (shift, then clamp the day to the target month's length, exactly as
  `relativedelta` does).  A combined `relativedelta(years=1, months=1)`
  subtraction is a single shift by 13 months with one clamp.
* floats become `ℚ`; Python's `round(x, 2)` becomes `round2`, rounding half
  to even (banker's rounding), which is exact for values whose half-way
  position is representable.
* a pandas DataFrame of one reservoir becomes a `List RawRecord`; `NaN`
  means produced by empty windows, later turned into `None` by
  `df.where(pd.notnull(df), None)`, are collapsed into `Option ℚ` directly.
-/

namespace Embalses

/-- Calendar date: year, month (1-12) and day (1-31), all integers. -/
structure Date where
  year : Int
  month : Int
  day : Int
deriving DecidableEq, Repr

/-- Gregorian leap-year test, as in Python's `calendar`/`dateutil`. -/
def isLeap (y : Int) : Bool :=
  y % 4 == 0 && (y % 100 != 0 || y % 400 == 0)

/-- Number of days of month `m` of year `y`. -/
def daysInMonth (y m : Int) : Int :=
  if m = 2 then (if isLeap y then 29 else 28)
  else if m = 4 ∨ m = 6 ∨ m = 9 ∨ m = 11 then 30
  else 31

/-- A structurally valid calendar date. -/
def ValidDate (dt : Date) : Prop :=
  1 ≤ dt.month ∧ dt.month ≤ 12 ∧ 1 ≤ dt.day ∧ dt.day ≤ daysInMonth dt.year dt.month

instance : DecidablePred ValidDate := fun dt => by
  unfold ValidDate; infer_instance

/-- Shift a date by `k` calendar months, clamping the day to the length of
the target month: the effect of adding `relativedelta(months=k)` (and, via
`k = 12 * y + m`, of any combined year/month `relativedelta`). -/
def addMonths (dt : Date) (k : Int) : Date :=
  let tot := dt.year * 12 + (dt.month - 1) + k
  let y := tot / 12
  let m := tot % 12 + 1
  ⟨y, m, min dt.day (daysInMonth y m)⟩

/-- Shift a date by `k` calendar years, clamping Feb 29 to Feb 28 on
non-leap targets: the effect of adding `relativedelta(years=k)`. -/
def addYears (dt : Date) (k : Int) : Date :=
  ⟨dt.year + k, dt.month, min dt.day (daysInMonth (dt.year + k) dt.month)⟩

/-- Number of leap years in `[1, y]` (for `y ≥ 0`), floor-division form. -/
def leapsBefore (y : Int) : Int :=
  y / 4 - y / 100 + y / 400

/-- Days strictly before month `m` in a non-leap year (month 13 closes the
year at 365). -/
def monthOffset (m : Int) : Int :=
  if m ≤ 1 then 0 else if m = 2 then 31 else if m = 3 then 59
  else if m = 4 then 90 else if m = 5 then 120 else if m = 6 then 151
  else if m = 7 then 181 else if m = 8 then 212 else if m = 9 then 243
  else if m = 10 then 273 else if m = 11 then 304 else if m = 12 then 334
  else 365

/-- Proleptic Gregorian day number of a date.  Pandas timestamp order and
`Timedelta(days=n)` offsets are exactly order and translation on `toRD`. -/
def toRD (dt : Date) : Int :=
  365 * (dt.year - 1) + leapsBefore (dt.year - 1) + monthOffset dt.month
    + (if 2 < dt.month ∧ isLeap dt.year = true then 1 else 0) + dt.day

/-- One cleaned row of the dumped table, restricted to the fields the
engine reads: `FECHA`, `AGUA_TOTAL`, `AGUA_ACTUAL`. -/
structure RawRecord where
  fecha : Date
  aguaTotal : ℚ
  aguaActual : ℚ
deriving DecidableEq, Repr

instance : Inhabited RawRecord := ⟨⟨⟨1, 1, 1⟩, 0, 0⟩⟩

/-- Insert a record into a list kept in descending `FECHA` order, after any
records of strictly later or equal date (stable). -/
def insertFechaDesc (r : RawRecord) : List RawRecord → List RawRecord
  | [] => [r]
  | x :: xs => if toRD x.fecha < toRD r.fecha then r :: x :: xs
               else x :: insertFechaDesc r xs

/-- Sort by `FECHA`, descending: `df_embalse.sort_values('FECHA', ascending=False)`. -/
def sortFechaDesc (l : List RawRecord) : List RawRecord :=
  l.foldr insertFechaDesc []

/-- Arithmetic mean of a list of rationals; `none` on the empty list,
as pandas `.mean()` of an empty column is `NaN`. -/
def qmean (l : List ℚ) : Option ℚ :=
  if l.isEmpty then none else some (l.sum / l.length)

/-- Floor of a rational as an integer (the denominator is positive, so
floor division of numerator by denominator). -/
def qfloor (x : ℚ) : Int :=
  x.num.fdiv x.den

/-- Python's `round` half-to-even on an exact rational. -/
def roundHalfEven (x : ℚ) : Int :=
  let n := qfloor x
  let r := x - n
  if r < 1 / 2 then n
  else if 1 / 2 < r then n + 1
  else if n % 2 = 0 then n else n + 1

/-- Rounding to 2 decimal places: `round(x, 2)`. -/
def round2 (q : ℚ) : ℚ :=
  (roundHalfEven (q * 100) : ℚ) / 100

/-- Mean of the `AGUA_ACTUAL` column of a record list, rounded to 2
decimals: `round(sub_df['AGUA_ACTUAL'].mean(), 2)`, `NaN` as `none`. -/
def omean (l : List RawRecord) : Option ℚ :=
  (qmean (l.map (fun r => r.aguaActual))).map round2

/-- The per-reservoir statistics row assembled by the engine (short keys of
the output; `at` is spelled `at'` since `at` is reserved). -/
structure Stats where
  aa : ℚ
  at' : ℚ
  f : Date
  m1s : Option ℚ
  m2s : Option ℚ
  m1m : Option ℚ
  ma1 : Option ℚ
  h3a : Option ℚ
  h5a : Option ℚ
  h10a : Option ℚ
  h20a : Option ℚ
  ht : Option ℚ
deriving DecidableEq, Repr

/-- `calcular_estadisticas_embalse`: the statistics of one reservoir's
record list.  The empty-frame guard returns `none` (`pd.Series()`). -/
def calcularEstadisticasEmbalse (dfEmbalse : List RawRecord) : Option Stats :=
  if dfEmbalse.isEmpty then none
  else
    let sorted := sortFechaDesc dfEmbalse
    let refRec := sorted.headI
    let fechaReferencia := refRec.fecha
    let mesRef := fechaReferencia.month
    let df1s := sorted.filter (fun r => decide (toRD fechaReferencia - 7 ≤ toRD r.fecha))
    let df2s := sorted.filter (fun r => decide (toRD fechaReferencia - 14 ≤ toRD r.fecha))
    let df1m := sorted.filter (fun r => decide (toRD fechaReferencia - 30 ≤ toRD r.fecha))
    let dfHistMes := sorted.filter (fun r => r.fecha.month == mesRef)
    let mediaHistorica := fun (anios : Int) =>
      let fechaLimite := addYears fechaReferencia (-anios)
      omean (dfHistMes.filter (fun r => decide (toRD fechaLimite ≤ toRD r.fecha)))
    let fechaAnioAntIni := addMonths fechaReferencia (-13)
    let fechaAnioAntFin := addMonths (addYears fechaReferencia (-1)) 1
    let dfAnioAnt := sorted.filter (fun r =>
      decide (toRD fechaAnioAntIni < toRD r.fecha) &&
      decide (toRD r.fecha ≤ toRD fechaAnioAntFin) &&
      (r.fecha.month == mesRef))
    some
      { aa := round2 refRec.aguaActual
        at' := round2 refRec.aguaTotal
        f := fechaReferencia
        m1s := omean df1s
        m2s := omean df2s
        m1m := omean df1m
        ma1 := if dfAnioAnt.isEmpty then none else omean dfAnioAnt
        h3a := mediaHistorica 3
        h5a := mediaHistorica 5
        h10a := mediaHistorica 10
        h20a := mediaHistorica 20
        ht := omean dfHistMes }

/-- Records of `df` whose date lies in the closed interval
`[fref − n days, fref]` (the spec's reading of the rolling windows). -/
def rollingWindow (fref : Date) (n : Int) (df : List RawRecord) : List RawRecord :=
  df.filter (fun r => decide (toRD fref - n ≤ toRD r.fecha ∧ toRD r.fecha ≤ toRD fref))

/-- Records of `df` passing the source's rolling filter
`FECHA >= fecha_referencia - pd.Timedelta(days=n)` (lower bound only). -/
def rollingLower (fref : Date) (n : Int) (df : List RawRecord) : List RawRecord :=
  df.filter (fun r => decide (toRD fref - n ≤ toRD r.fecha))

/-- Records of `df` sharing the reference date's calendar month
(`df_embalse['FECHA'].dt.month == mes_ref`). -/
def monthCohort (fref : Date) (df : List RawRecord) : List RawRecord :=
  df.filter (fun r => r.fecha.month == fref.month)

/-- Month-cohort records on or after `fref` minus `k` calendar years
(`df_hist_mes['FECHA'] >= fecha_referencia - relativedelta(years=k)`). -/
def histWindow (fref : Date) (k : Int) (df : List RawRecord) : List RawRecord :=
  (monthCohort fref df).filter (fun r => decide (toRD (addYears fref (-k)) ≤ toRD r.fecha))

/-- Records of `df` in the prior-year window: strictly after
`fref - relativedelta(years=1, months=1)`, at or before
`fref - relativedelta(years=1) + relativedelta(months=1)`, and in the
reference month. -/
def ma1Window (fref : Date) (df : List RawRecord) : List RawRecord :=
  df.filter (fun r =>
    decide (toRD (addMonths fref (-13)) < toRD r.fecha) &&
    decide (toRD r.fecha ≤ toRD (addMonths (addYears fref (-1)) 1)) &&
    (r.fecha.month == fref.month))

/-- A JSON scalar appearing in an output data record. -/
inductive Scalar where
  | str (s : String)
  | num (q : ℚ)
  | null
deriving DecidableEq

/-- One flattened output record: an ordered list of short-key/value pairs. -/
abbrev JRecord := List (String × Scalar)

/-- Hexadecimal digit characters (also the decimal digits). -/
def hexDigit (n : Nat) : Char :=
  if n < 10 then Char.ofNat (48 + n) else Char.ofNat (87 + n)

/-- Decimal digits of a natural number, most significant first. -/
def natDigits (n : Nat) : String :=
  if _h : n < 10 then String.mk [hexDigit n]
  else natDigits (n / 10) ++ String.mk [hexDigit (n % 10)]
termination_by n
decreasing_by omega

/-- Escaping of one character inside a JSON string literal, as
`json.dumps` with `ensure_ascii=False` does it. -/
def escapeChar (c : Char) : String :=
  if c = '"' then "\\\""
  else if c = '\\' then "\\\\"
  else if c = '\n' then "\\n"
  else if c = '\r' then "\\r"
  else if c = '\t' then "\\t"
  else if c.toNat < 32 then "\\u00" ++ String.mk [hexDigit (c.toNat / 16), hexDigit (c.toNat % 16)]
  else String.mk [c]

/-- JSON string-literal escaping: concatenation of the escaped characters. -/
def escapeJson (s : String) : String :=
  (s.data.map escapeChar).foldr (fun a b => a ++ b) ""

/-- A JSON string literal: quotes around the escaped content. -/
def quoteJson (s : String) : String :=
  "\"" ++ escapeJson s ++ "\""

/-- Decimal rendering of a number that (as every number the engine emits)
carries at most two decimal places, dropping a trailing zero digit as the
repr of the corresponding float does; other rationals fall back to a
fraction rendering (never reached by the pipeline's outputs). -/
def ratStr (q : ℚ) : String :=
  let c := q * 100
  if c.den = 1 then
    let n := c.num.natAbs
    let sign := if c.num < 0 then "-" else ""
    let fr := n % 100
    let frStr := if fr % 10 = 0 then natDigits (fr / 10)
                 else natDigits (fr / 10) ++ natDigits (fr % 10)
    sign ++ natDigits (n / 100) ++ "." ++ frStr
  else
    (if q.num < 0 then "-" else "") ++ natDigits q.num.natAbs ++ "/" ++ natDigits q.den

/-- Rendering of one scalar as JSON text. -/
def scalarStr : Scalar → String
  | .str s => quoteJson s
  | .num q => ratStr q
  | .null => "null"

/-- Dense single-line rendering of a record:
`json.dumps(record, ensure_ascii=False, separators=(',', ':'))`. -/
def dumpDenseRecord (r : JRecord) : String :=
  "\x7b" ++ String.intercalate "," (r.map (fun kv => quoteJson kv.1 ++ ":" ++ scalarStr kv.2)) ++ "\x7d"

/-- The static metadata block: source label and short-key dictionary. -/
structure Metadata where
  fuente : String
  mapeo : List (String × String)
deriving DecidableEq

/-- The `METADATA` constant of the source. -/
def METADATA : Metadata :=
  { fuente := "MITECO"
    mapeo :=
      [("an", "AMBITO_NOMBRE"), ("en", "EMBALSE_NOMBRE"), ("at", "AGUA_TOTAL"),
       ("aa", "AGUA_ACTUAL"), ("f", "FECHA_ULTIMO_DATO"), ("m1s", "Media_Ultima_Semana"),
       ("m2s", "Media_Ultimas_2_Semanas"), ("m1m", "Media_Ultimo_Mes"),
       ("ma1", "Media_Mismo_Mes_Anio_Anterior"), ("h3a", "Media_Historica_Mes_3_Anios"),
       ("h5a", "Media_Historica_Mes_5_Anios"), ("h10a", "Media_Historica_Mes_10_Anios"),
       ("h20a", "Media_Historica_Mes_20_Anios"), ("ht", "Media_Historica_Mes_Total")] }

/-- Pretty rendering of the key dictionary at nesting depth 1, as
`json.dump(..., ensure_ascii=False, indent=2)` renders the inner object. -/
def dumpPrettyMapeo (mapeo : List (String × String)) : String :=
  if mapeo.isEmpty then "\x7b\x7d"
  else
    "\x7b\n" ++
    String.intercalate ",\n" (mapeo.map (fun kv => "    " ++ quoteJson kv.1 ++ ": " ++ quoteJson kv.2)) ++
    "\n  \x7d"

/-- Pretty rendering of the metadata block at top level with `indent=2`:
`json.dump(export_data["metadatos"], f, ensure_ascii=False, indent=2)`. -/
def dumpPrettyMetadata (m : Metadata) : String :=
  "\x7b\n  \"fuente\": " ++ quoteJson m.fuente ++ ",\n  \"mapeo\": " ++
    dumpPrettyMapeo m.mapeo ++ "\n\x7d"

/-- The record-writing loop of `procesar_datos`: each record on one dense
line prefixed by four spaces, a comma after every record but the last. -/
def writeRecordLines : List JRecord → String
  | [] => ""
  | [r] => "    " ++ dumpDenseRecord r ++ "\n"
  | r :: rest => "    " ++ dumpDenseRecord r ++ ",\n" ++ writeRecordLines rest

/-- The hybrid writer of `procesar_datos`: pretty metadata, bracketed data
array of dense record lines, closing lines for the array and the object. -/
def serializeDataset (meta : Metadata) (records : List JRecord) : String :=
  "\x7b\n  \"metadatos\": " ++ dumpPrettyMetadata meta ++
    ",\n  \"datos\": [\n" ++ writeRecordLines records ++ "  ]\n\x7d\n"

/-- Persistent state visible across pipeline runs: the fingerprint file
(`last_mdb_hash.txt`, absent on a first run) and the output artifact
(`datos_embalses_optimizado.json`); a partially written, invalid output is
`none`. -/
structure SysState where
  hashFile : Option String
  output : Option String
deriving DecidableEq

/-- Outcome of the external stages of one invocation: the downloaded and
extracted MDB bytes (or a download/extraction error), the `mdb-export`
dump parsed into output records (or a read error), and whether writing the
output file succeeds. -/
structure RunInput where
  download : Except String (List Nat)
  mdbExport : Except String (List JRecord)
  writeOk : Bool

/-- Result of one invocation of `main`: the exit status, the persistent
state afterwards, and whether the run took the unchanged-hash early exit. -/
structure RunResult where
  exitCode : Nat
  state : SysState
  skipped : Bool
deriving DecidableEq

/-- The control flow of `main` (with `procesar_datos` inlined), over an
abstract content digest `hash` standing for `get_file_hash`'s SHA-256 (the
claims depend only on it being a function of the bytes): download and
extract (exit 1 on failure), hash the MDB, exit 0 early when the persisted
fingerprint matches, otherwise dump and process the table (exit 1 on
failure), write the output, and only then persist the new fingerprint;
an exception while writing leaves an invalid partial output, a nonzero
exit, and the old fingerprint. -/
def runMain (hash : List Nat → String) (inp : RunInput) (s : SysState) : RunResult :=
  match inp.download with
  | .error _ => ⟨1, s, false⟩
  | .ok mdbBytes =>
    let currentHash := hash mdbBytes
    let unchanged := match s.hashFile with
      | some lastHash => currentHash == lastHash
      | none => false
    if unchanged then ⟨0, s, true⟩
    else
      match inp.mdbExport with
      | .error _ => ⟨1, s, false⟩
      | .ok records =>
        if inp.writeOk then
          ⟨0, ⟨some currentHash, some (serializeDataset METADATA records)⟩, false⟩
        else
          ⟨1, ⟨s.hashFile, none⟩, false⟩

/-- Concrete two-record series: the older record is dated exactly three
calendar years before the reference date. -/
def dfBoundary : List RawRecord :=
  [⟨⟨2024, 6, 15⟩, 100, 10⟩, ⟨⟨2021, 6, 15⟩, 100, 20⟩]

/-- Concrete one-record series whose volume 0.125 is an exact half-way
value at two decimals. -/
def dfHalfway : List RawRecord :=
  [⟨⟨2024, 6, 15⟩, 100, 1 / 8⟩]

/-- Concrete one-record series used to instantiate universally quantified
theorems. -/
def dfSingle : List RawRecord :=
  [⟨⟨2024, 6, 15⟩, 50, 20⟩]

/-! Calendar lemmas: the day number `toRD` is strictly monotone in the
lexicographic order of valid dates, and calendar-year subtraction moves a
valid date strictly down. -/

theorem leapsBefore_mono {x y : Int} (h : x ≤ y) : leapsBefore x ≤ leapsBefore y := by
  unfold leapsBefore
  omega

theorem leapsBefore_succ (y : Int) :
    leapsBefore y = leapsBefore (y - 1) + (if isLeap y = true then 1 else 0) := by
  unfold leapsBefore
  split
  case isTrue h =>
    simp only [isLeap, Bool.and_eq_true, beq_iff_eq, Bool.or_eq_true, bne_iff_ne] at h
    omega
  case isFalse h =>
    simp only [isLeap, Bool.and_eq_true, beq_iff_eq, Bool.or_eq_true, bne_iff_ne] at h
    push_neg at h
    omega

theorem daysInMonth_pos (y m : Int) : 1 ≤ daysInMonth y m := by
  unfold daysInMonth
  split
  · split <;> omega
  · split <;> omega

theorem dayOfYear_bounds (y m d : Int) (h1 : 1 ≤ m) (h2 : m ≤ 12) (h3 : 1 ≤ d)
    (h4 : d ≤ daysInMonth y m) :
    1 ≤ monthOffset m + (if 2 < m ∧ isLeap y = true then 1 else 0) + d ∧
      monthOffset m + (if 2 < m ∧ isLeap y = true then 1 else 0) + d
        ≤ 365 + (if isLeap y = true then 1 else 0) := by
  cases hL : isLeap y <;>
    (interval_cases m <;> simp_all [monthOffset, daysInMonth] <;> omega)

theorem monthOffset_boundary (y m1 m2 : Int) (h1 : 1 ≤ m1) (hlt : m1 < m2) (h2 : m2 ≤ 12) :
    monthOffset m1 + (if 2 < m1 ∧ isLeap y = true then 1 else 0) + daysInMonth y m1
      ≤ monthOffset m2 + (if 2 < m2 ∧ isLeap y = true then 1 else 0) := by
  have hb1 : 2 ≤ m2 := by omega
  have hb2 : m1 ≤ 11 := by omega
  cases hL : isLeap y <;>
    (interval_cases m1 <;> interval_cases m2 <;> simp_all [monthOffset, daysInMonth])

theorem toRD_lt_of_lex {a b : Date} (ha : ValidDate a) (hb : ValidDate b)
    (h : a.year < b.year ∨ (a.year = b.year ∧
          (a.month < b.month ∨ (a.month = b.month ∧ a.day < b.day)))) :
    toRD a < toRD b := by
  obtain ⟨ham1, ham2, had1, had2⟩ := ha
  obtain ⟨hbm1, hbm2, hbd1, hbd2⟩ := hb
  unfold toRD
  rcases h with hy | ⟨hy, hm | ⟨hm, hd⟩⟩
  · -- strictly earlier year: bound `a` by its year end, `b` from its year start
    have hA := (dayOfYear_bounds a.year a.month a.day ham1 ham2 had1 had2).2
    have hB := (dayOfYear_bounds b.year b.month b.day hbm1 hbm2 hbd1 hbd2).1
    have hstep := leapsBefore_succ a.year
    have hmono : leapsBefore a.year ≤ leapsBefore (b.year - 1) :=
      leapsBefore_mono (by omega)
    omega
  · -- same year, strictly earlier month
    have hbound := monthOffset_boundary a.year a.month b.month ham1 hm hbm2
    rw [← hy] at hbd2 ⊢
    omega
  · -- same year and month, earlier day
    rw [hy, hm]
    omega

theorem validDate_addYears {dt : Date} (h : ValidDate dt) (k : Int) :
    ValidDate (addYears dt k) := by
  obtain ⟨h1, h2, h3, h4⟩ := h
  have := daysInMonth_pos (dt.year + k) dt.month
  exact ⟨h1, h2, by simp [addYears]; omega, by simp [addYears]⟩

theorem validDate_addMonths {dt : Date} (h : ValidDate dt) (k : Int) :
    ValidDate (addMonths dt k) := by
  obtain ⟨h1, h2, h3, h4⟩ := h
  have hm : 0 ≤ (dt.year * 12 + (dt.month - 1) + k) % 12 ∧
      (dt.year * 12 + (dt.month - 1) + k) % 12 < 12 := by omega
  have := daysInMonth_pos ((dt.year * 12 + (dt.month - 1) + k) / 12)
    ((dt.year * 12 + (dt.month - 1) + k) % 12 + 1)
  exact ⟨by simp [addMonths]; omega, by simp [addMonths]; omega,
    by simp [addMonths]; omega, by simp [addMonths]⟩

theorem toRD_addYears_lt {dt : Date} (h : ValidDate dt) {k : Int} (hk : 0 < k) :
    toRD (addYears dt (-k)) < toRD dt := by
  refine toRD_lt_of_lex (validDate_addYears h (-k)) h ?_
  left
  simp [addYears]
  omega

theorem toRD_ma1Upper_lt {dt : Date} (h : ValidDate dt) :
    toRD (addMonths (addYears dt (-1)) 1) < toRD dt := by
  have hv : ValidDate (addMonths (addYears dt (-1)) 1) :=
    validDate_addMonths (validDate_addYears h (-1)) 1
  refine toRD_lt_of_lex hv h ?_
  obtain ⟨h1, h2, h3, h4⟩ := h
  by_cases hm : dt.month ≤ 11
  · left
    simp only [addMonths, addYears]
    omega
  · right
    constructor
    · simp only [addMonths, addYears]
      omega
    · left
      simp only [addMonths, addYears]
      omega

/-! Sorting and permutation lemmas: the descending sort is a permutation
whose head carries the maximum date, and every aggregate of the engine is
permutation-invariant, so each window can be read off the unsorted series. -/

theorem perm_insertFechaDesc (r : RawRecord) (l : List RawRecord) :
    (insertFechaDesc r l).Perm (r :: l) := by
  induction l with
  | nil => exact List.Perm.refl _
  | cons x xs ih =>
    unfold insertFechaDesc
    split
    · exact List.Perm.refl _
    · exact (ih.cons x).trans (List.Perm.swap r x xs)

theorem perm_sortFechaDesc (l : List RawRecord) : (sortFechaDesc l).Perm l := by
  induction l with
  | nil => exact List.Perm.refl _
  | cons x xs ih =>
    have hcons : sortFechaDesc (x :: xs) = insertFechaDesc x (sortFechaDesc xs) := rfl
    rw [hcons]
    exact (perm_insertFechaDesc x _).trans (ih.cons x)

theorem toRD_le_headI_sort (l : List RawRecord) :
    ∀ r ∈ l, toRD r.fecha ≤ toRD ((sortFechaDesc l).headI).fecha := by
  induction l with
  | nil => intro r hr; cases hr
  | cons x xs ih =>
    intro r hr
    have hcons : sortFechaDesc (x :: xs) = insertFechaDesc x (sortFechaDesc xs) := rfl
    rw [hcons]
    cases hsx : sortFechaDesc xs with
    | nil =>
      have hxs : xs = [] := by
        have hp := perm_sortFechaDesc xs
        rw [hsx] at hp
        exact hp.symm.eq_nil
      subst hxs
      have hrx : r = x := by simpa using hr
      subst hrx
      simp [insertFechaDesc]
    | cons y ys =>
      rcases List.mem_cons.mp hr with hrx | hrxs
      · subst hrx
        unfold insertFechaDesc
        split
        · simp
        · next hcond => simp; omega
      · have hr' := ih r hrxs
        rw [hsx] at hr'
        simp only [List.headI_cons] at hr'
        unfold insertFechaDesc
        split
        · next hcond => simp; omega
        · simpa using hr'

theorem headI_sort_mem (l : List RawRecord) (h : l ≠ []) :
    (sortFechaDesc l).headI ∈ l := by
  have hp := perm_sortFechaDesc l
  have hne : sortFechaDesc l ≠ [] := by
    intro hnil
    rw [hnil] at hp
    exact h hp.nil_eq.symm
  obtain ⟨a, as, hcons⟩ := List.exists_cons_of_ne_nil hne
  rw [hcons]
  simp only [List.headI_cons]
  exact hp.mem_iff.mp (by rw [hcons]; exact List.mem_cons_self a as)

theorem qmean_perm {l1 l2 : List ℚ} (h : l1.Perm l2) : qmean l1 = qmean l2 := by
  unfold qmean
  have hlen := h.length_eq
  have hsum := h.sum_eq
  have hemp : l1.isEmpty = l2.isEmpty := by
    cases l1 <;> cases l2 <;> simp_all
  rw [hemp, hsum, hlen]

theorem omean_perm {l1 l2 : List RawRecord} (h : l1.Perm l2) : omean l1 = omean l2 := by
  unfold omean
  rw [qmean_perm (h.map _)]

theorem isEmpty_perm {l1 l2 : List RawRecord} (h : l1.Perm l2) : l1.isEmpty = l2.isEmpty := by
  cases l1 <;> cases l2 <;> simp_all

/-- Characterization of the engine on a non-empty series: it returns the
statistics row whose every window is the corresponding filter of the
(unsorted) input series, anchored at the head of the descending sort. -/
theorem calcular_eq_some (df : List RawRecord) (h : df ≠ []) :
    calcularEstadisticasEmbalse df = some
      { aa := round2 ((sortFechaDesc df).headI.aguaActual)
        at' := round2 ((sortFechaDesc df).headI.aguaTotal)
        f := (sortFechaDesc df).headI.fecha
        m1s := omean (rollingLower (sortFechaDesc df).headI.fecha 7 df)
        m2s := omean (rollingLower (sortFechaDesc df).headI.fecha 14 df)
        m1m := omean (rollingLower (sortFechaDesc df).headI.fecha 30 df)
        ma1 := if (ma1Window (sortFechaDesc df).headI.fecha df).isEmpty then none
               else omean (ma1Window (sortFechaDesc df).headI.fecha df)
        h3a := omean (histWindow (sortFechaDesc df).headI.fecha 3 df)
        h5a := omean (histWindow (sortFechaDesc df).headI.fecha 5 df)
        h10a := omean (histWindow (sortFechaDesc df).headI.fecha 10 df)
        h20a := omean (histWindow (sortFechaDesc df).headI.fecha 20 df)
        ht := omean (monthCohort (sortFechaDesc df).headI.fecha df) } := by
  have hne : df.isEmpty = false := by
    cases df
    · exact absurd rfl h
    · rfl
  have hperm := perm_sortFechaDesc df
  unfold calcularEstadisticasEmbalse
  rw [hne]
  simp only [Bool.false_eq_true, if_false, Option.some.injEq, Stats.mk.injEq]
  refine ⟨trivial, trivial, trivial, ?_, ?_, ?_, ?_, ?_, ?_, ?_, ?_, ?_⟩
  · simp only [rollingLower]
    exact omean_perm (hperm.filter _)
  · simp only [rollingLower]
    exact omean_perm (hperm.filter _)
  · simp only [rollingLower]
    exact omean_perm (hperm.filter _)
  · simp only [ma1Window]
    rw [isEmpty_perm (hperm.filter _), omean_perm (hperm.filter _)]
  · simp only [histWindow, monthCohort]
    exact omean_perm ((hperm.filter _).filter _)
  · simp only [histWindow, monthCohort]
    exact omean_perm ((hperm.filter _).filter _)
  · simp only [histWindow, monthCohort]
    exact omean_perm ((hperm.filter _).filter _)
  · simp only [histWindow, monthCohort]
    exact omean_perm ((hperm.filter _).filter _)
  · simp only [monthCohort]
    exact omean_perm (hperm.filter _)

/-! Rounding lemmas: `round2` on integers, on exact half-way values and on
values already carrying two decimals. -/

theorem qfloor_eq_floor (x : ℚ) : qfloor x = ⌊x⌋ := by
  unfold qfloor
  rw [Int.fdiv_eq_ediv _ (by positivity), Rat.floor_def]

theorem roundHalfEven_intCast (m : Int) : roundHalfEven (m : ℚ) = m := by
  unfold roundHalfEven
  rw [qfloor_eq_floor, Int.floor_intCast]
  norm_num

theorem roundHalfEven_add_half (m : Int) :
    roundHalfEven ((m : ℚ) + 1 / 2) = if m % 2 = 0 then m else m + 1 := by
  unfold roundHalfEven
  rw [qfloor_eq_floor, Int.floor_int_add]
  norm_num

theorem round2_intCast (m : Int) : round2 (m : ℚ) = (m : ℚ) := by
  unfold round2
  rw [show ((m : ℚ) * 100) = ((m * 100 : Int) : ℚ) by push_cast; ring,
    roundHalfEven_intCast]
  push_cast
  field_simp

theorem round2_cents (c : Int) : round2 ((c : ℚ) / 100) = (c : ℚ) / 100 := by
  unfold round2
  rw [show ((c : ℚ) / 100 * 100) = ((c : Int) : ℚ) by field_simp, roundHalfEven_intCast]

/-! Singleton series: the engine on a one-record list. -/

theorem calcular_singleton (r : RawRecord) (hv : ValidDate r.fecha) :
    calcularEstadisticasEmbalse [r] = some
      { aa := round2 r.aguaActual
        at' := round2 r.aguaTotal
        f := r.fecha
        m1s := some (round2 r.aguaActual)
        m2s := some (round2 r.aguaActual)
        m1m := some (round2 r.aguaActual)
        ma1 := none
        h3a := some (round2 r.aguaActual)
        h5a := some (round2 r.aguaActual)
        h10a := some (round2 r.aguaActual)
        h20a := some (round2 r.aguaActual)
        ht := some (round2 r.aguaActual) } := by
  have hsort : sortFechaDesc [r] = [r] := rfl
  have homean : omean [r] = some (round2 r.aguaActual) := by
    simp [omean, qmean]
  have hroll : ∀ n : Int, 0 ≤ n → rollingLower r.fecha n [r] = [r] := by
    intro n hn
    simp only [rollingLower, List.filter_cons, List.filter_nil]
    rw [if_pos]
    simp only [decide_eq_true_eq]
    omega
  have hcohort : monthCohort r.fecha [r] = [r] := by
    simp [monthCohort]
  have hhist : ∀ k : Int, 0 < k → histWindow r.fecha k [r] = [r] := by
    intro k hk
    have hle := le_of_lt (toRD_addYears_lt hv hk)
    simp only [histWindow, hcohort, List.filter_cons, List.filter_nil]
    rw [if_pos]
    simpa using hle
  have hma1 : ma1Window r.fecha [r] = [] := by
    have hlt := toRD_ma1Upper_lt hv
    simp only [ma1Window, List.filter_cons, List.filter_nil]
    rw [if_neg]
    simp only [Bool.and_eq_true, decide_eq_true_eq, beq_iff_eq]
    intro hcontra
    omega
  rw [calcular_eq_some [r] (by simp)]
  rw [hsort]
  simp only [List.headI_cons]
  rw [hroll 7 (by norm_num), hroll 14 (by norm_num), hroll 30 (by norm_num),
    hhist 3 (by norm_num), hhist 5 (by norm_num), hhist 10 (by norm_num),
    hhist 20 (by norm_num), hcohort, hma1, homean]
  simp

/-! Bridging lemmas between the code's one-sided rolling filter and the
spec's closed interval, and emptiness of aggregated windows. -/

theorem rollingLower_eq_window (fref : Date) (n : Int) (df : List RawRecord)
    (hmax : ∀ r ∈ df, toRD r.fecha ≤ toRD fref) :
    rollingLower fref n df = rollingWindow fref n df := by
  unfold rollingLower rollingWindow
  apply List.filter_congr
  intro x hx
  have hx' := hmax x hx
  simp only [decide_eq_decide]
  omega

theorem omean_eq_none {l : List RawRecord} : omean l = none ↔ l = [] := by
  simp [omean, qmean, List.isEmpty_iff]

/-- C1: on a non-empty series the three rolling means are the rounded
arithmetic means of `AGUA_ACTUAL` over exactly the records dated within
the closed interval `[reference_date − N days, reference_date]` for
`N = 7, 14, 30`, where the reference date is the maximum date of the
series. -/
theorem c1_rolling_windows (df : List RawRecord) (h : df ≠ []) :
    ∃ s, calcularEstadisticasEmbalse df = some s ∧
      (∃ r ∈ df, r.fecha = s.f) ∧
      (∀ r ∈ df, toRD r.fecha ≤ toRD s.f) ∧
      s.m1s = omean (rollingWindow s.f 7 df) ∧
      s.m2s = omean (rollingWindow s.f 14 df) ∧
      s.m1m = omean (rollingWindow s.f 30 df) := by
  refine ⟨_, calcular_eq_some df h, ⟨_, headI_sort_mem df h, rfl⟩, toRD_le_headI_sort df,
    ?_, ?_, ?_⟩ <;>
    exact congrArg omean (rollingLower_eq_window _ _ df (toRD_le_headI_sort df))

/-- Closed witness for C1 at a concrete one-record series. -/
theorem c1_rolling_windows_witness :
    dfSingle ≠ [] ∧
      ∃ s, calcularEstadisticasEmbalse dfSingle = some s ∧
        (∃ r ∈ dfSingle, r.fecha = s.f) ∧
        (∀ r ∈ dfSingle, toRD r.fecha ≤ toRD s.f) ∧
        s.m1s = omean (rollingWindow s.f 7 dfSingle) ∧
        s.m2s = omean (rollingWindow s.f 14 dfSingle) ∧
        s.m1m = omean (rollingWindow s.f 30 dfSingle) :=
  ⟨by simp [dfSingle], c1_rolling_windows dfSingle (by simp [dfSingle])⟩

/-- C3: on a non-empty series `ma1` is the rounded mean of `AGUA_ACTUAL`
over exactly the records strictly after `reference_date − 1 year − 1
month`, at or before `reference_date − 1 year + 1 month`, and in the
reference date's calendar month; it is null exactly when no record
satisfies all three conditions. -/
theorem c3_ma1_window (df : List RawRecord) (h : df ≠ []) :
    ∃ s, calcularEstadisticasEmbalse df = some s ∧
      (∀ r ∈ df, r ∈ ma1Window s.f df ↔
        (toRD (addMonths s.f (-13)) < toRD r.fecha ∧
         toRD r.fecha ≤ toRD (addMonths (addYears s.f (-1)) 1) ∧
         r.fecha.month = s.f.month)) ∧
      s.ma1 = (if ma1Window s.f df = [] then none else omean (ma1Window s.f df)) := by
  refine ⟨_, calcular_eq_some df h, ?_, ?_⟩
  · intro r hr
    simp [ma1Window, List.mem_filter, hr, and_assoc]
  · exact if_congr (by simp [List.isEmpty_iff]) rfl rfl

/-- Closed witness for C3 at a concrete one-record series. -/
theorem c3_ma1_window_witness :
    dfSingle ≠ [] ∧
      ∃ s, calcularEstadisticasEmbalse dfSingle = some s ∧
        (∀ r ∈ dfSingle, r ∈ ma1Window s.f dfSingle ↔
          (toRD (addMonths s.f (-13)) < toRD r.fecha ∧
           toRD r.fecha ≤ toRD (addMonths (addYears s.f (-1)) 1) ∧
           r.fecha.month = s.f.month)) ∧
        s.ma1 = (if ma1Window s.f dfSingle = [] then none else omean (ma1Window s.f dfSingle)) :=
  ⟨by simp [dfSingle], c3_ma1_window dfSingle (by simp [dfSingle])⟩

/-- C4: on a one-record series every rolling and historical mean equals
the record's `AGUA_ACTUAL` rounded to two decimals, and `ma1` is null. -/
theorem c4_singleton_series (r : RawRecord) (hv : ValidDate r.fecha) :
    ∃ s, calcularEstadisticasEmbalse [r] = some s ∧
      s.m1s = some (round2 r.aguaActual) ∧
      s.m2s = some (round2 r.aguaActual) ∧
      s.m1m = some (round2 r.aguaActual) ∧
      s.h3a = some (round2 r.aguaActual) ∧
      s.h5a = some (round2 r.aguaActual) ∧
      s.h10a = some (round2 r.aguaActual) ∧
      s.h20a = some (round2 r.aguaActual) ∧
      s.ht = some (round2 r.aguaActual) ∧
      s.ma1 = none :=
  ⟨_, calcular_singleton r hv, rfl, rfl, rfl, rfl, rfl, rfl, rfl, rfl, rfl⟩

/-- Closed witness for C4 at a concrete record with a valid date. -/
theorem c4_singleton_series_witness :
    ValidDate (⟨⟨2024, 6, 15⟩, 50, 20⟩ : RawRecord).fecha ∧
      ∃ s, calcularEstadisticasEmbalse [(⟨⟨2024, 6, 15⟩, 50, 20⟩ : RawRecord)] = some s ∧
        s.m1s = some (round2 20) ∧
        s.m2s = some (round2 20) ∧
        s.m1m = some (round2 20) ∧
        s.h3a = some (round2 20) ∧
        s.h5a = some (round2 20) ∧
        s.h10a = some (round2 20) ∧
        s.h20a = some (round2 20) ∧
        s.ht = some (round2 20) ∧
        s.ma1 = none :=
  ⟨by decide, c4_singleton_series ⟨⟨2024, 6, 15⟩, 50, 20⟩ (by decide)⟩

/-- C6: every mean field of the snapshot is null exactly when its window
holds no observations, and otherwise is a (rounded) number. -/
theorem c6_null_iff_empty_window (df : List RawRecord) (h : df ≠ []) :
    ∃ s, calcularEstadisticasEmbalse df = some s ∧
      (s.m1s = none ↔ rollingLower s.f 7 df = []) ∧
      (s.m2s = none ↔ rollingLower s.f 14 df = []) ∧
      (s.m1m = none ↔ rollingLower s.f 30 df = []) ∧
      (s.ma1 = none ↔ ma1Window s.f df = []) ∧
      (s.h3a = none ↔ histWindow s.f 3 df = []) ∧
      (s.h5a = none ↔ histWindow s.f 5 df = []) ∧
      (s.h10a = none ↔ histWindow s.f 10 df = []) ∧
      (s.h20a = none ↔ histWindow s.f 20 df = []) ∧
      (s.ht = none ↔ monthCohort s.f df = []) := by
  refine ⟨_, calcular_eq_some df h, omean_eq_none, omean_eq_none, omean_eq_none, ?_,
    omean_eq_none, omean_eq_none, omean_eq_none, omean_eq_none, omean_eq_none⟩
  by_cases hW : ma1Window (sortFechaDesc df).headI.fecha df = [] <;>
    simp [hW, List.isEmpty_iff, omean_eq_none]

/-- Closed witness for C6 at a concrete one-record series. -/
theorem c6_null_iff_empty_window_witness :
    dfSingle ≠ [] ∧
      ∃ s, calcularEstadisticasEmbalse dfSingle = some s ∧
        (s.m1s = none ↔ rollingLower s.f 7 dfSingle = []) ∧
        (s.m2s = none ↔ rollingLower s.f 14 dfSingle = []) ∧
        (s.m1m = none ↔ rollingLower s.f 30 dfSingle = []) ∧
        (s.ma1 = none ↔ ma1Window s.f dfSingle = []) ∧
        (s.h3a = none ↔ histWindow s.f 3 dfSingle = []) ∧
        (s.h5a = none ↔ histWindow s.f 5 dfSingle = []) ∧
        (s.h10a = none ↔ histWindow s.f 10 dfSingle = []) ∧
        (s.h20a = none ↔ histWindow s.f 20 dfSingle = []) ∧
        (s.ht = none ↔ monthCohort s.f dfSingle = []) :=
  ⟨by simp [dfSingle], c6_null_iff_empty_window dfSingle (by simp [dfSingle])⟩

/-- C10: on a non-empty series of valid dates, the rolling means and the
month-anchored historical means are never null (each window holds at
least the reference record); only `ma1` can be null, as a one-record
series shows. -/
theorem c10_only_ma1_nullable (df : List RawRecord) (h : df ≠ [])
    (hv : ∀ r ∈ df, ValidDate r.fecha) :
    ∃ s, calcularEstadisticasEmbalse df = some s ∧
      s.m1s ≠ none ∧ s.m2s ≠ none ∧ s.m1m ≠ none ∧
      s.h3a ≠ none ∧ s.h5a ≠ none ∧ s.h10a ≠ none ∧ s.h20a ≠ none ∧ s.ht ≠ none ∧
      (∃ df1 s1, df1 ≠ [] ∧ (∀ r ∈ df1, ValidDate r.fecha) ∧
        calcularEstadisticasEmbalse df1 = some s1 ∧ s1.ma1 = none) := by
  have hmem := headI_sort_mem df h
  have hvref := hv _ hmem
  have hcohort : (sortFechaDesc df).headI ∈
      monthCohort (sortFechaDesc df).headI.fecha df :=
    List.mem_filter.mpr ⟨hmem, by simp⟩
  have hroll : ∀ n : Int, 0 ≤ n →
      omean (rollingLower (sortFechaDesc df).headI.fecha n df) ≠ none := by
    intro n hn
    rw [Ne, omean_eq_none]
    refine List.ne_nil_of_mem (a := (sortFechaDesc df).headI) (List.mem_filter.mpr ⟨hmem, ?_⟩)
    simp only [decide_eq_true_eq]
    omega
  have hhist : ∀ k : Int, 0 < k →
      omean (histWindow (sortFechaDesc df).headI.fecha k df) ≠ none := by
    intro k hk
    rw [Ne, omean_eq_none]
    refine List.ne_nil_of_mem (a := (sortFechaDesc df).headI)
      (List.mem_filter.mpr ⟨hcohort, ?_⟩)
    simp only [decide_eq_true_eq]
    exact le_of_lt (toRD_addYears_lt hvref hk)
  refine ⟨_, calcular_eq_some df h, hroll 7 (by norm_num), hroll 14 (by norm_num),
    hroll 30 (by norm_num), hhist 3 (by norm_num), hhist 5 (by norm_num),
    hhist 10 (by norm_num), hhist 20 (by norm_num), ?_, ?_⟩
  · rw [Ne, omean_eq_none]
    exact List.ne_nil_of_mem hcohort
  · refine ⟨[⟨⟨2024, 6, 15⟩, 50, 20⟩], _, by simp, ?_,
      calcular_singleton ⟨⟨2024, 6, 15⟩, 50, 20⟩ (by decide), rfl⟩
    intro r hr
    rw [List.mem_singleton.mp hr]
    decide

/-- Closed witness for C10 at a concrete one-record series. -/
theorem c10_only_ma1_nullable_witness :
    dfSingle ≠ [] ∧ (∀ r ∈ dfSingle, ValidDate r.fecha) ∧
      ∃ s, calcularEstadisticasEmbalse dfSingle = some s ∧
        s.m1s ≠ none ∧ s.m2s ≠ none ∧ s.m1m ≠ none ∧
        s.h3a ≠ none ∧ s.h5a ≠ none ∧ s.h10a ≠ none ∧ s.h20a ≠ none ∧ s.ht ≠ none ∧
        (∃ df1 s1, df1 ≠ [] ∧ (∀ r ∈ df1, ValidDate r.fecha) ∧
          calcularEstadisticasEmbalse df1 = some s1 ∧ s1.ma1 = none) :=
  ⟨by simp [dfSingle], by intro r hr; rw [List.mem_singleton.mp hr]; decide,
    c10_only_ma1_nullable dfSingle (by simp [dfSingle])
      (by intro r hr; rw [List.mem_singleton.mp hr]; decide)⟩

theorem omean_if_isEmpty (l : List RawRecord) :
    (if l.isEmpty then none else omean l) = omean l := by
  cases l <;> simp [omean, qmean]

/-- C2 counterexample: in the two-record series `dfBoundary`, the older
record is dated exactly three calendar years before the reference date
2024-06-15 and lies in the reference month, yet it belongs to the 3-year
window (the filter is `>=`), and `h3a` is the mean 15 of both records,
not the 10 that exclusion would give. -/
theorem c2_counterexample :
    addYears (⟨2024, 6, 15⟩ : Date) (-3) = ⟨2021, 6, 15⟩ ∧
    (⟨⟨2021, 6, 15⟩, 100, 20⟩ : RawRecord) ∈ histWindow ⟨2024, 6, 15⟩ 3 dfBoundary ∧
    ∃ s, calcularEstadisticasEmbalse dfBoundary = some s ∧ s.f = ⟨2024, 6, 15⟩ ∧
      s.h3a = omean (histWindow s.f 3 dfBoundary) ∧ s.h3a = some 15 ∧
      s.h3a ≠ some 10 := by
  have hw : histWindow (sortFechaDesc dfBoundary).headI.fecha 3 dfBoundary = dfBoundary := by
    decide
  have h15 : round2 (15 : ℚ) = 15 := by
    rw [show (15 : ℚ) = ((15 : Int) : ℚ) by norm_num, round2_intCast]
  have homean : omean dfBoundary = some 15 := by
    simp only [omean, qmean, dfBoundary, List.map_cons, List.map_nil, List.isEmpty_cons,
      Bool.false_eq_true, if_false, List.sum_cons, List.sum_nil, List.length_cons,
      List.length_nil, Option.map_some]
    norm_num
    exact h15
  refine ⟨by decide, by decide, _,
    calcular_eq_some dfBoundary (by simp [dfBoundary]), by decide, rfl, ?_, ?_⟩
  · rw [hw]
    exact homean
  · rw [hw]
    show omean dfBoundary ≠ some 10
    rw [homean]
    simp only [Ne, Option.some.injEq]
    norm_num

/-- C2 amended: the calendar-year lookback boundary is inclusive: a
month-cohort record dated exactly K years minus one day before the
reference date is in the K-year window, and so is one dated exactly K
calendar years before (the filter is `date >= reference_date − K years`). -/
theorem c2_hist_boundary_inclusive (df : List RawRecord) (h : df ≠ []) :
    ∃ s, calcularEstadisticasEmbalse df = some s ∧
      s.h3a = omean (histWindow s.f 3 df) ∧
      s.h5a = omean (histWindow s.f 5 df) ∧
      s.h10a = omean (histWindow s.f 10 df) ∧
      s.h20a = omean (histWindow s.f 20 df) ∧
      (∀ k : Int, ∀ r ∈ df, r.fecha.month = s.f.month →
        (toRD r.fecha = toRD (addYears s.f (-k)) + 1 → r ∈ histWindow s.f k df) ∧
        (toRD r.fecha = toRD (addYears s.f (-k)) → r ∈ histWindow s.f k df)) := by
  refine ⟨_, calcular_eq_some df h, rfl, rfl, rfl, rfl, ?_⟩
  dsimp only
  intro k r hr hmonth
  constructor <;> intro heq <;>
    exact List.mem_filter.mpr ⟨List.mem_filter.mpr ⟨hr, by simp [hmonth]⟩,
      by simp only [decide_eq_true_eq]; omega⟩

/-- Closed witness for the amended C2 at the concrete boundary series. -/
theorem c2_hist_boundary_inclusive_witness :
    dfBoundary ≠ [] ∧
      ∃ s, calcularEstadisticasEmbalse dfBoundary = some s ∧
        s.h3a = omean (histWindow s.f 3 dfBoundary) ∧
        s.h5a = omean (histWindow s.f 5 dfBoundary) ∧
        s.h10a = omean (histWindow s.f 10 dfBoundary) ∧
        s.h20a = omean (histWindow s.f 20 dfBoundary) ∧
        (∀ k : Int, ∀ r ∈ dfBoundary, r.fecha.month = s.f.month →
          (toRD r.fecha = toRD (addYears s.f (-k)) + 1 → r ∈ histWindow s.f k dfBoundary) ∧
          (toRD r.fecha = toRD (addYears s.f (-k)) → r ∈ histWindow s.f k dfBoundary)) :=
  ⟨by simp [dfBoundary], c2_hist_boundary_inclusive dfBoundary (by simp [dfBoundary])⟩

/-- C5 counterexample: the one-record series `dfHalfway` has a rolling
window whose exact mean is 0.125, an exact half-way value at two
decimals; half-up rounding would render 0.13, but the engine renders
0.12 (Python's `round` rounds half to even). -/
theorem c5_counterexample :
    qmean (dfHalfway.map (fun r => r.aguaActual)) = some (1 / 8) ∧
    ∃ s, calcularEstadisticasEmbalse dfHalfway = some s ∧
      s.m1s = some (12 / 100) ∧ s.m1s ≠ some (13 / 100) ∧ s.aa = 12 / 100 := by
  have hval : ValidDate (⟨2024, 6, 15⟩ : Date) := by decide
  have hr2 : round2 (1 / 8) = 12 / 100 := by
    unfold round2
    rw [show ((1 : ℚ) / 8 * 100) = ((12 : Int) : ℚ) + 1 / 2 by norm_num,
      roundHalfEven_add_half]
    norm_num
  constructor
  · simp [dfHalfway, qmean]
  · refine ⟨_, calcular_singleton ⟨⟨2024, 6, 15⟩, 100, 1 / 8⟩ hval, ?_, ?_, ?_⟩
    · show some (round2 (1 / 8)) = some (12 / 100)
      rw [hr2]
    · show some (round2 (1 / 8)) ≠ some (13 / 100)
      rw [hr2]
      simp
      norm_num
    · show round2 (1 / 8) = 12 / 100
      exact hr2

/-- C5 amended: one shared rounding function `round2` — Python's round
half to even — is applied to `aa`, `at` and to every mean field, and on
exact half-way values it rounds to the even hundredth: 0.125 renders
0.12 and 0.375 renders 0.38, not 0.13 / 0.37. -/
theorem c5_rounding_policy (df : List RawRecord) (h : df ≠ []) :
    ∃ s, calcularEstadisticasEmbalse df = some s ∧
      s.aa = round2 ((sortFechaDesc df).headI.aguaActual) ∧
      s.at' = round2 ((sortFechaDesc df).headI.aguaTotal) ∧
      s.m1s = omean (rollingLower s.f 7 df) ∧
      s.m2s = omean (rollingLower s.f 14 df) ∧
      s.m1m = omean (rollingLower s.f 30 df) ∧
      s.ma1 = omean (ma1Window s.f df) ∧
      s.h3a = omean (histWindow s.f 3 df) ∧
      s.h5a = omean (histWindow s.f 5 df) ∧
      s.h10a = omean (histWindow s.f 10 df) ∧
      s.h20a = omean (histWindow s.f 20 df) ∧
      s.ht = omean (monthCohort s.f df) ∧
      round2 (1 / 8) = 12 / 100 ∧ round2 (3 / 8) = 38 / 100 := by
  have htie1 : round2 (1 / 8 : ℚ) = 12 / 100 := by
    unfold round2
    rw [show ((1 : ℚ) / 8 * 100) = ((12 : Int) : ℚ) + 1 / 2 by norm_num,
      roundHalfEven_add_half]
    norm_num
  have htie2 : round2 (3 / 8 : ℚ) = 38 / 100 := by
    unfold round2
    rw [show ((3 : ℚ) / 8 * 100) = ((37 : Int) : ℚ) + 1 / 2 by norm_num,
      roundHalfEven_add_half]
    norm_num
  exact ⟨_, calcular_eq_some df h, rfl, rfl, rfl, rfl, rfl,
    omean_if_isEmpty _, rfl, rfl, rfl, rfl, rfl, htie1, htie2⟩

/-- Closed witness for the amended C5 at a concrete one-record series. -/
theorem c5_rounding_policy_witness :
    dfSingle ≠ [] ∧
      ∃ s, calcularEstadisticasEmbalse dfSingle = some s ∧
        s.aa = round2 ((sortFechaDesc dfSingle).headI.aguaActual) ∧
        s.at' = round2 ((sortFechaDesc dfSingle).headI.aguaTotal) ∧
        s.m1s = omean (rollingLower s.f 7 dfSingle) ∧
        s.m2s = omean (rollingLower s.f 14 dfSingle) ∧
        s.m1m = omean (rollingLower s.f 30 dfSingle) ∧
        s.ma1 = omean (ma1Window s.f dfSingle) ∧
        s.h3a = omean (histWindow s.f 3 dfSingle) ∧
        s.h5a = omean (histWindow s.f 5 dfSingle) ∧
        s.h10a = omean (histWindow s.f 10 dfSingle) ∧
        s.h20a = omean (histWindow s.f 20 dfSingle) ∧
        s.ht = omean (monthCohort s.f dfSingle) ∧
        round2 (1 / 8) = 12 / 100 ∧ round2 (3 / 8) = 38 / 100 :=
  ⟨by simp [dfSingle], c5_rounding_policy dfSingle (by simp [dfSingle])⟩

/-- C7: when the digest of the downloaded artifact equals the persisted
fingerprint, the run exits 0 on the skip path with the whole persistent
state (fingerprint and output artifact) unchanged; with no persisted
fingerprint the run never skips; and after any run that exited 0, running
again on the same artifact exits 0 via the skip path and leaves the state
unchanged. -/
theorem c7_change_gate (hash : List Nat → String) (inp : RunInput) (s : SysState)
    (mdb : List Nat) (hdl : inp.download = .ok mdb) :
    (s.hashFile = some (hash mdb) → runMain hash inp s = ⟨0, s, true⟩) ∧
    (s.hashFile = none → (runMain hash inp s).skipped = false) ∧
    ((runMain hash inp s).exitCode = 0 →
      runMain hash inp (runMain hash inp s).state = ⟨0, (runMain hash inp s).state, true⟩) := by
  refine ⟨?_, ?_, ?_⟩
  · intro hs
    simp [runMain, hdl, hs]
  · intro hs
    rcases hex : inp.mdbExport with e | records <;>
      cases hwk : inp.writeOk <;> simp [runMain, hdl, hs, hex, hwk]
  · intro h0
    rcases hsh : s.hashFile with _ | lastHash
    · rcases hex : inp.mdbExport with e | records
      · simp [runMain, hdl, hsh, hex] at h0
      · cases hwk : inp.writeOk
        · simp [runMain, hdl, hsh, hex, hwk] at h0
        · simp [runMain, hdl, hsh, hex, hwk]
    · by_cases heq : hash mdb = lastHash
      · simp [runMain, hdl, hsh, heq]
      · rcases hex : inp.mdbExport with e | records
        · simp [runMain, hdl, hsh, heq, hex] at h0
        · cases hwk : inp.writeOk
          · simp [runMain, hdl, hsh, heq, hex, hwk] at h0
          · simp [runMain, hdl, hsh, heq, hex, hwk]

/-- Closed witness for C7: a first run with no persisted fingerprint
processes, and the gate facts hold at a concrete input. -/
theorem c7_change_gate_witness :
    ((⟨none, none⟩ : SysState).hashFile = some ((fun _ => "h") [0]) →
      runMain (fun _ => "h") ⟨.ok [0], .ok [], true⟩ ⟨none, none⟩ = ⟨0, ⟨none, none⟩, true⟩) ∧
    ((⟨none, none⟩ : SysState).hashFile = none →
      (runMain (fun _ => "h") ⟨.ok [0], .ok [], true⟩ ⟨none, none⟩).skipped = false) ∧
    ((runMain (fun _ => "h") ⟨.ok [0], .ok [], true⟩ ⟨none, none⟩).exitCode = 0 →
      runMain (fun _ => "h") ⟨.ok [0], .ok [], true⟩
          (runMain (fun _ => "h") ⟨.ok [0], .ok [], true⟩ ⟨none, none⟩).state =
        ⟨0, (runMain (fun _ => "h") ⟨.ok [0], .ok [], true⟩ ⟨none, none⟩).state, true⟩) :=
  c7_change_gate (fun _ => "h") ⟨.ok [0], .ok [], true⟩ ⟨none, none⟩ [0] rfl

/-- C8: the persisted fingerprint changes only on a run that exited 0
after a successful write of the serialized output; every run that exits
nonzero leaves the previously persisted fingerprint unchanged; and each
fatal-error path — download/extraction failure, MDB read failure on a
run the gate does not skip, write failure on a run that reached the
writer — exits nonzero with the old fingerprint intact. -/
theorem c8_fingerprint_crash_safe (hash : List Nat → String) (inp : RunInput) (s : SysState) :
    ((runMain hash inp s).state.hashFile ≠ s.hashFile →
      (runMain hash inp s).exitCode = 0 ∧ inp.writeOk = true ∧
      ∃ mdb records, inp.download = .ok mdb ∧ inp.mdbExport = .ok records ∧
        (runMain hash inp s).state.hashFile = some (hash mdb) ∧
        (runMain hash inp s).state.output = some (serializeDataset METADATA records)) ∧
    ((runMain hash inp s).exitCode ≠ 0 → (runMain hash inp s).state.hashFile = s.hashFile) ∧
    (∀ e, inp.download = .error e →
      (runMain hash inp s).exitCode ≠ 0 ∧ (runMain hash inp s).state = s) ∧
    (∀ mdb e, inp.download = .ok mdb → s.hashFile ≠ some (hash mdb) →
      inp.mdbExport = .error e →
      (runMain hash inp s).exitCode ≠ 0 ∧ (runMain hash inp s).state = s) ∧
    (∀ mdb records, inp.download = .ok mdb → s.hashFile ≠ some (hash mdb) →
      inp.mdbExport = .ok records → inp.writeOk = false →
      (runMain hash inp s).exitCode ≠ 0 ∧
        (runMain hash inp s).state.hashFile = s.hashFile) := by
  rcases hdl : inp.download with e | mdb
  · simp [runMain, hdl]
  · rcases hsh : s.hashFile with _ | lastHash
    · rcases hex : inp.mdbExport with e | records
      · simp [runMain, hdl, hsh, hex]
      · cases hwk : inp.writeOk
        · simp [runMain, hdl, hsh, hex, hwk]
        · simp [runMain, hdl, hsh, hex, hwk]
    · by_cases heq : hash mdb = lastHash
      · simp [runMain, hdl, hsh, heq]
        constructor
        · intro mdb1 e hm hne
          exact absurd (hm ▸ heq).symm hne
        · intro mdb1 records hm hne
          exact absurd (hm ▸ heq).symm hne
      · rcases hex : inp.mdbExport with e | records
        · simp [runMain, hdl, hsh, heq, hex]
        · cases hwk : inp.writeOk
          · simp [runMain, hdl, hsh, heq, hex, hwk]
          · simp [runMain, hdl, hsh, heq, hex, hwk]

/-- Closed witness for C8: a concrete run with an unchanged-hash miss and
a write failure exits nonzero with the fingerprint untouched. -/
theorem c8_fingerprint_crash_safe_witness :
    (runMain (fun _ => "h") ⟨.ok [0], .ok [], false⟩ ⟨some "old", some "out"⟩).exitCode ≠ 0 ∧
    (runMain (fun _ => "h") ⟨.ok [0], .ok [], false⟩
        ⟨some "old", some "out"⟩).state.hashFile =
      (⟨some "old", some "out"⟩ : SysState).hashFile :=
  (c8_fingerprint_crash_safe (fun _ => "h") ⟨.ok [0], .ok [], false⟩
      ⟨some "old", some "out"⟩).2.2.2.2 [0] [] rfl (by decide) rfl rfl

/-! Serializer lemmas: characters of the rendered pieces, and the
unfolding of the record-line loop into a separator-joined form. -/

theorem mem_data_append {c : Char} {a b : String} :
    c ∈ (a ++ b).data ↔ c ∈ a.data ∨ c ∈ b.data := by
  rw [String.data_append]
  exact List.mem_append

theorem hexDigit_ne {d : Nat} (hd : d < 16) : hexDigit d ≠ '\n' ∧ hexDigit d ≠ ' ' := by
  interval_cases d <;> exact ⟨by decide, by decide⟩

theorem mem_single {c a : Char} (h : c ∈ ([a] : List Char)) : c = a :=
  List.mem_singleton.mp h

theorem mem_pair {c a b : Char} (h : c ∈ ([a, b] : List Char)) : c = a ∨ c = b := by
  rcases List.mem_cons.mp h with h | h
  · exact Or.inl h
  · exact Or.inr (List.mem_singleton.mp h)

theorem mem_quad {c a b e f : Char} (h : c ∈ ([a, b, e, f] : List Char)) :
    c = a ∨ c = b ∨ c = e ∨ c = f := by
  rcases List.mem_cons.mp h with h | h
  · exact Or.inl h
  · rcases List.mem_cons.mp h with h | h
    · exact Or.inr (Or.inl h)
    · exact Or.inr (Or.inr (mem_pair h))

theorem natDigits_chars (n : Nat) : ∀ c ∈ (natDigits n).data, c ≠ '\n' ∧ c ≠ ' ' := by
  induction n using natDigits.induct with
  | case1 n hn =>
    intro c hc
    rw [natDigits, dif_pos hn] at hc
    have hd := hexDigit_ne (d := n) (by omega)
    have hc' := mem_single hc
    rw [hc']
    exact hd
  | case2 n hn ih =>
    intro c hc
    rw [natDigits, dif_neg hn] at hc
    rcases mem_data_append.mp hc with hc | hc
    · exact ih c hc
    · have hd := hexDigit_ne (d := n % 10) (by omega)
      have hc' := mem_single hc
      rw [hc']
      exact hd

theorem escapeChar_chars (c : Char) :
    ∀ d ∈ (escapeChar c).data, d ≠ '\n' ∧ (c ≠ ' ' → d ≠ ' ') := by
  intro d hd
  unfold escapeChar at hd
  split at hd
  · next hc => rcases mem_pair hd with h | h <;> rw [h] <;> exact ⟨by decide, fun _ => by decide⟩
  · split at hd
    · rcases mem_pair hd with h | h <;> rw [h] <;> exact ⟨by decide, fun _ => by decide⟩
    · split at hd
      · rcases mem_pair hd with h | h <;> rw [h] <;> exact ⟨by decide, fun _ => by decide⟩
      · split at hd
        · rcases mem_pair hd with h | h <;> rw [h] <;> exact ⟨by decide, fun _ => by decide⟩
        · split at hd
          · rcases mem_pair hd with h | h <;> rw [h] <;> exact ⟨by decide, fun _ => by decide⟩
          · split at hd
            · rcases mem_data_append.mp hd with hm | hm
              · rcases mem_quad hm with h | h | h | h <;> rw [h] <;>
                  exact ⟨by decide, fun _ => by decide⟩
              · have h1 := hexDigit_ne (d := c.toNat / 16) (by omega)
                have h2 := hexDigit_ne (d := c.toNat % 16) (by omega)
                rcases mem_pair hm with h | h <;> rw [h]
                · exact ⟨h1.1, fun _ => h1.2⟩
                · exact ⟨h2.1, fun _ => h2.2⟩
            · next h1 h2 h3 h4 h5 h6 =>
              have hd' := mem_single hd
              rw [hd']
              exact ⟨h3, fun hp => hp⟩

theorem escapeList_chars (l : List Char) :
    ∀ d ∈ ((l.map escapeChar).foldr (fun a b => a ++ b) "").data,
      d ≠ '\n' ∧ ((∀ c ∈ l, c ≠ ' ') → d ≠ ' ') := by
  induction l with
  | nil => intro d hd; cases hd
  | cons c cs ih =>
    intro d hd
    simp only [List.map_cons, List.foldr_cons] at hd
    rcases mem_data_append.mp hd with hm | hm
    · have h := escapeChar_chars c d hm
      exact ⟨h.1, fun hall => h.2 (hall c (List.mem_cons_self c cs))⟩
    · have h := ih d hm
      exact ⟨h.1, fun hall => h.2 (fun x hx => hall x (List.mem_cons_of_mem c hx))⟩

theorem escapeJson_no_newline (s : String) : '\n' ∉ (escapeJson s).data := by
  intro hm
  exact (escapeList_chars s.data _ hm).1 rfl

theorem escapeJson_no_space {s : String} (h : ' ' ∉ s.data) : ' ' ∉ (escapeJson s).data := by
  intro hm
  exact (escapeList_chars s.data _ hm).2 (fun c hc he => h (he ▸ hc)) rfl

theorem quoteJson_no_newline (s : String) : '\n' ∉ (quoteJson s).data := by
  unfold quoteJson
  intro hm
  rcases mem_data_append.mp hm with hm | hm
  · rcases mem_data_append.mp hm with hm | hm
    · revert hm; decide
    · exact escapeJson_no_newline s hm
  · revert hm; decide

theorem quoteJson_no_space {s : String} (h : ' ' ∉ s.data) : ' ' ∉ (quoteJson s).data := by
  unfold quoteJson
  intro hm
  rcases mem_data_append.mp hm with hm | hm
  · rcases mem_data_append.mp hm with hm | hm
    · revert hm; decide
    · exact escapeJson_no_space h hm
  · revert hm; decide

theorem ratStr_chars (q : ℚ) : ∀ c ∈ (ratStr q).data, c ≠ '\n' ∧ c ≠ ' ' := by
  intro c hc
  simp only [ratStr] at hc
  split at hc
  · rcases mem_data_append.mp hc with hm | hm
    · rcases mem_data_append.mp hm with hm | hm
      · rcases mem_data_append.mp hm with hm | hm
        · split at hm
          · rw [mem_single hm]
            exact ⟨by decide, by decide⟩
          · exact absurd hm (by intro hx; exact (List.not_mem_nil c) hx)
        · exact natDigits_chars _ c hm
      · rw [mem_single hm]
        exact ⟨by decide, by decide⟩
    · split at hm
      · exact natDigits_chars _ c hm
      · rcases mem_data_append.mp hm with hm | hm
        · exact natDigits_chars _ c hm
        · exact natDigits_chars _ c hm
  · rcases mem_data_append.mp hc with hm | hm
    · rcases mem_data_append.mp hm with hm | hm
      · rcases mem_data_append.mp hm with hm | hm
        · split at hm
          · rw [mem_single hm]
            exact ⟨by decide, by decide⟩
          · exact absurd hm (by intro hx; exact (List.not_mem_nil c) hx)
        · exact natDigits_chars _ c hm
      · rw [mem_single hm]
        exact ⟨by decide, by decide⟩
    · exact natDigits_chars _ c hm

theorem scalarStr_no_newline (v : Scalar) : '\n' ∉ (scalarStr v).data := by
  cases v with
  | str s => exact quoteJson_no_newline s
  | num q => intro hm; exact (ratStr_chars q _ hm).1 rfl
  | null => decide

theorem scalarStr_no_space (v : Scalar) (h : ∀ s, v = .str s → ' ' ∉ s.data) :
    ' ' ∉ (scalarStr v).data := by
  cases v with
  | str s => exact quoteJson_no_space (h s rfl)
  | num q => intro hm; exact (ratStr_chars q _ hm).2 rfl
  | null => decide

theorem intercalate_go_append (s : String) :
    ∀ (l : List String) (acc1 acc2 : String),
      String.intercalate.go (acc1 ++ acc2) s l = acc1 ++ String.intercalate.go acc2 s l := by
  intro l
  induction l with
  | nil => intro a b; rfl
  | cons x xs ih =>
    intro a b
    show String.intercalate.go (a ++ b ++ s ++ x) s xs =
      a ++ String.intercalate.go (b ++ s ++ x) s xs
    rw [show a ++ b ++ s ++ x = a ++ (b ++ s ++ x) by simp [String.append_assoc]]
    exact ih a (b ++ s ++ x)

theorem intercalate_cons2 (s a b : String) (t : List String) :
    String.intercalate s (a :: b :: t) = a ++ s ++ String.intercalate s (b :: t) := by
  show String.intercalate.go a s (b :: t) = a ++ s ++ String.intercalate.go b s t
  show String.intercalate.go (a ++ s ++ b) s t = a ++ s ++ String.intercalate.go b s t
  exact intercalate_go_append s t (a ++ s) b

theorem intercalate_no_char {c : Char} {sep : String} (hsep : c ∉ sep.data) :
    ∀ {l : List String}, (∀ x ∈ l, c ∉ x.data) → c ∉ (String.intercalate sep l).data := by
  intro l
  induction l with
  | nil => intro _ hm; cases hm
  | cons x xs ih =>
    intro hall
    cases xs with
    | nil =>
      have : String.intercalate sep [x] = x := rfl
      rw [this]
      exact hall x (List.mem_cons_self x [])
    | cons y ys =>
      rw [intercalate_cons2]
      intro hm
      rcases mem_data_append.mp hm with hm | hm
      · rcases mem_data_append.mp hm with hm | hm
        · exact hall x (List.mem_cons_self _ _) hm
        · exact hsep hm
      · exact ih (fun z hz => hall z (List.mem_cons_of_mem x hz)) hm

theorem dumpDenseRecord_no_newline (r : JRecord) : '\n' ∉ (dumpDenseRecord r).data := by
  unfold dumpDenseRecord
  intro hm
  rcases mem_data_append.mp hm with hm | hm
  · rcases mem_data_append.mp hm with hm | hm
    · revert hm; decide
    · refine intercalate_no_char (by decide) ?_ hm
      intro x hx
      rcases List.mem_map.mp hx with ⟨kv, _, hkv⟩
      rw [← hkv]
      intro hmx
      rcases mem_data_append.mp hmx with hmx | hmx
      · rcases mem_data_append.mp hmx with hmx | hmx
        · exact quoteJson_no_newline kv.1 hmx
        · revert hmx; decide
      · exact scalarStr_no_newline kv.2 hmx
  · revert hm; decide

theorem dumpDenseRecord_no_space (r : JRecord)
    (h : ∀ kv ∈ r, ' ' ∉ kv.1.data ∧ ∀ s, kv.2 = Scalar.str s → ' ' ∉ s.data) :
    ' ' ∉ (dumpDenseRecord r).data := by
  unfold dumpDenseRecord
  intro hm
  rcases mem_data_append.mp hm with hm | hm
  · rcases mem_data_append.mp hm with hm | hm
    · revert hm; decide
    · refine intercalate_no_char (by decide) ?_ hm
      intro x hx
      rcases List.mem_map.mp hx with ⟨kv, hkvr, hkv⟩
      rw [← hkv]
      intro hmx
      rcases mem_data_append.mp hmx with hmx | hmx
      · rcases mem_data_append.mp hmx with hmx | hmx
        · exact quoteJson_no_space (h kv hkvr).1 hmx
        · revert hmx; decide
      · exact scalarStr_no_space kv.2 (h kv hkvr).2 hmx
  · revert hm; decide

theorem writeRecordLines_eq (records : List JRecord) (h : records ≠ []) :
    writeRecordLines records =
      String.intercalate ",\n" (records.map (fun r => "    " ++ dumpDenseRecord r)) ++ "\n" := by
  induction records with
  | nil => exact absurd rfl h
  | cons r rest ih =>
    cases rest with
    | nil => rfl
    | cons b t =>
      show "    " ++ dumpDenseRecord r ++ ",\n" ++ writeRecordLines (b :: t) = _
      rw [ih (by simp)]
      simp only [List.map_cons]
      rw [intercalate_cons2]
      simp [String.append_assoc]

/-- C9: for a dataset with at least one record the serialized output is
the pretty-printed metadata block followed by the data array in which
every record is one dense line, lines are separated by a comma and
newline (so every record but the last gets a trailing comma), and the
array and outer object close on their own lines; the metadata rendering
is multi-line, each dense record line contains no newline, and it
contains no space beyond those inside its own strings. -/
theorem c9_hybrid_layout (meta : Metadata) (records : List JRecord) (h : records ≠ []) :
    serializeDataset meta records =
      "\x7b\n  \"metadatos\": " ++ dumpPrettyMetadata meta ++ ",\n  \"datos\": [\n" ++
        (String.intercalate ",\n" (records.map (fun r => "    " ++ dumpDenseRecord r)) ++ "\n") ++
        "  ]\n\x7d\n" ∧
    '\n' ∈ (dumpPrettyMetadata meta).data ∧
    (∀ r ∈ records, '\n' ∉ (dumpDenseRecord r).data) ∧
    (∀ r ∈ records,
      (∀ kv ∈ r, ' ' ∉ kv.1.data ∧ ∀ s, kv.2 = Scalar.str s → ' ' ∉ s.data) →
      ' ' ∉ (dumpDenseRecord r).data) := by
  refine ⟨?_, ?_, fun r _ => dumpDenseRecord_no_newline r,
    fun r _ hws => dumpDenseRecord_no_space r hws⟩
  · unfold serializeDataset
    rw [writeRecordLines_eq records h]
  · unfold dumpPrettyMetadata
    exact mem_data_append.mpr (Or.inl (mem_data_append.mpr (Or.inl (mem_data_append.mpr
      (Or.inl (mem_data_append.mpr (Or.inl (by decide))))))))

/-- Closed witness for C9 at the source metadata and a one-record dataset. -/
theorem c9_hybrid_layout_witness :
    ([[("an", Scalar.str "X")]] : List JRecord) ≠ [] ∧
      (serializeDataset METADATA [[("an", Scalar.str "X")]] =
        "\x7b\n  \"metadatos\": " ++ dumpPrettyMetadata METADATA ++ ",\n  \"datos\": [\n" ++
          (String.intercalate ",\n"
            (([[("an", Scalar.str "X")]] : List JRecord).map
              (fun r => "    " ++ dumpDenseRecord r)) ++ "\n") ++
          "  ]\n\x7d\n" ∧
      '\n' ∈ (dumpPrettyMetadata METADATA).data ∧
      (∀ r ∈ ([[("an", Scalar.str "X")]] : List JRecord), '\n' ∉ (dumpDenseRecord r).data) ∧
      (∀ r ∈ ([[("an", Scalar.str "X")]] : List JRecord),
        (∀ kv ∈ r, ' ' ∉ kv.1.data ∧ ∀ s, kv.2 = Scalar.str s → ' ' ∉ s.data) →
        ' ' ∉ (dumpDenseRecord r).data)) :=
  ⟨by simp, c9_hybrid_layout METADATA [[("an", Scalar.str "X")]] (by simp)⟩

end Embalses
